import Mathlib

/-!
Shallow embedding of `src/app.py` (pdf-splitter).

The program's pure logic is: page-number parsing (`parse_page_numbers`),
the book-page → physical-index mapping (`get_book_page_mapping`), and the
validation/ordering logic of `extract_pages_to_single_pdf` and
`split_pdf_individual_pages`.  User input arriving through `input()` is
modelled as explicit `String` arguments; the PDF reader is modelled by its
total page count; written output is modelled as the list of physical page
indices (and file names) in the order they are written.
-/

namespace PdfSplitter

/-- Model of Python's `str.strip()` on a character list: remove leading and
trailing whitespace. -/
def trimChars (cs : List Char) : List Char :=
  ((cs.dropWhile Char.isWhitespace).reverse.dropWhile Char.isWhitespace).reverse

/-- Model of Python's `str.split(sep)` for a one-character separator:
`"".split(',') = ['']`, `"a,,b".split(',') = ['a','','b']`. -/
def splitOnChar (sep : Char) : List Char → List (List Char)
  | [] => [[]]
  | c :: rest =>
    match splitOnChar sep rest with
    | [] => if c = sep then [[], []] else [[c]]
    | h :: t => if c = sep then [] :: h :: t else (c :: h) :: t

/-- Value of a list of decimal digit characters. -/
def digitsToNat (ds : List Char) : Nat :=
  ds.foldl (fun acc c => acc * 10 + (c.toNat - '0'.toNat)) 0

/-- Model of Python's `int()` applied to a string (ASCII decimal form):
surrounding whitespace is stripped, an optional single `+`/`-` sign is
allowed, followed by one or more decimal digits; anything else raises
`ValueError`, modelled as `none`.  (Underscore digit grouping is not
modelled; no input of interest uses it.) -/
def pyInt? (cs : List Char) : Option Int :=
  match trimChars cs with
  | [] => none
  | c :: rest =>
    if c = '+' then
      if rest ≠ [] ∧ rest.all Char.isDigit then some (digitsToNat rest) else none
    else if c = '-' then
      if rest ≠ [] ∧ rest.all Char.isDigit then some (-(digitsToNat rest : Int)) else none
    else
      if (c :: rest).all Char.isDigit then some (digitsToNat (c :: rest)) else none

/-- The list `[a, a+1, ..., b]` of integers (empty when `b < a`), as produced
by Python's `range(start, end + 1)`. -/
def rangeInts (a b : Int) : List Int :=
  (List.range (b + 1 - a).toNat).map (fun (i : Nat) => a + (i : Int))

/-- One loop iteration of `parse_page_numbers` (src/app.py:164-179) applied to
an already-stripped token: a token containing `-` is treated as a range
(`ValueError` from `int` or from unpacking a split of length ≠ 2 is caught
and yields nothing; a reversed range is warned about and yields nothing);
otherwise the token is parsed as a single integer, a failure yielding
nothing. -/
def parseToken (tok : List Char) : List Int :=
  if '-' ∈ tok then
    match splitOnChar '-' tok with
    | [a, b] =>
      match pyInt? a, pyInt? b with
      | some s, some e => if s ≤ e then rangeInts s e else []
      | _, _ => []
    | _ => []
  else
    match pyInt? tok with
    | some n => [n]
    | none => []

/-- `part = part.strip()` followed by the token processing
(src/app.py:165-179). -/
def parsePart (tok : List Char) : List Int :=
  parseToken (trimChars tok)

/-- `parse_page_numbers` (src/app.py:160-181): split the input on commas,
accumulate each part's contribution, then `sorted(list(set(pages)))`. -/
def parse_page_numbers (s : String) : List Int :=
  let pages := ((splitOnChar ',' s.data).map parsePart).flatten
  List.insertionSort (· ≤ ·) pages.dedup

/-- The `{i+1: i for i in range(total_pdf_pages)}` dictionary
(src/app.py:22/30/38/43/47), as an insertion-ordered association list. -/
def identityMapping (total : Nat) : List (Nat × Nat) :=
  (List.range total).map (fun i => (i + 1, i))

/-- The offset dictionary built by the loop at src/app.py:32-35:
`mapping[i + 1] = i + offset` for `i in range(total_pdf_pages - offset)`. -/
def offsetMapping (total k : Nat) : List (Nat × Nat) :=
  (List.range (total - k)).map (fun i => (i + 1, i + k))

/-- `get_book_page_mapping` (src/app.py:5-47).  The PDF reader contributes
only `total_pdf_pages`; the two interactive `input()` calls are the `choice`
and `offsetInput` arguments.  Choice `"1"` gives the 1:1 mapping; choice
`"2"` parses an offset (a `ValueError`, a negative offset or an offset
`≥ total` falls back to the 1:1 mapping); choice `"3"` (unimplemented
manual mapping) and any other choice fall back to the 1:1 mapping. -/
def get_book_page_mapping (total : Nat) (choice offsetInput : String) : List (Nat × Nat) :=
  if trimChars choice.data = ['1'] then identityMapping total
  else if trimChars choice.data = ['2'] then
    match pyInt? offsetInput.data with
    | none => identityMapping total
    | some v =>
      let offset : Int := v - 1
      if offset < 0 ∨ (total : Int) ≤ offset then identityMapping total
      else offsetMapping total offset.toNat
  else identityMapping total

/-- Python dictionary lookup on the association list (`mapping[b]` /
`b in mapping`): the keys built by `get_book_page_mapping` are distinct, so
first-match lookup is exact. -/
def mapLookup : List (Nat × Nat) → Nat → Option Nat
  | [], _ => none
  | (k, v) :: rest, b => if b = k then some v else mapLookup rest b

/-- The `valid_pdf_indices` accumulated by the validation loop
(src/app.py:69-73), in request order. -/
def validIndices (m : List (Nat × Nat)) (bps : List Nat) : List Nat :=
  bps.filterMap (mapLookup m)

/-- The `invalid_pages` accumulated by the validation loop
(src/app.py:69-71 and 128-130), in request order. -/
def invalidPages (m : List (Nat × Nat)) (bps : List Nat) : List Nat :=
  bps.filter (fun b => (mapLookup m b).isNone)

/-- Observable outcome of `extract_pages_to_single_pdf`: the returned
boolean, the physical page indices written to the single output document in
order, and the reported invalid book pages. -/
structure ExtractResult where
  success : Bool
  written : List Nat
  invalid : List Nat
deriving DecidableEq, Repr

/-- `extract_pages_to_single_pdf` (src/app.py:49-102), with the file I/O
abstracted away: validate each requested book page against the mapping
(src/app.py:66-79), return `False` when some pages were invalid and none
remain, otherwise add the valid pages to the writer sorted by physical
index (src/app.py:85-88). -/
def extract_pages_to_single_pdf (total : Nat) (choice offsetInput : String)
    (book_pages : List Nat) : ExtractResult :=
  let m := get_book_page_mapping total choice offsetInput
  let invalid := invalidPages m book_pages
  let valid := validIndices m book_pages
  if invalid ≠ [] ∧ valid = [] then ⟨false, [], invalid⟩
  else ⟨true, List.insertionSort (· ≤ ·) valid, invalid⟩

/-- The output file name `f'book_page_{book_page}.pdf'` (src/app.py:145);
`os.path.join` prepends the output directory, which is the same for every
file of one run and is omitted here. -/
def fileName (bp : Nat) : String :=
  "book_page_" ++ toString bp ++ ".pdf"

/-- Observable outcome of `split_pdf_individual_pages`: the returned
boolean, the written files in order (file name together with the single
physical page index each one contains), and the reported invalid book
pages. -/
structure SplitResult where
  success : Bool
  files : List (String × Nat)
  invalid : List Nat
deriving DecidableEq, Repr

/-- `split_pdf_individual_pages` (src/app.py:104-158), with the file I/O
abstracted away: `book_pages=None` selects every key of the mapping
(src/app.py:123-124); invalid pages are reported and dropped, returning
`False` when none remain (src/app.py:127-137); each remaining book page is
written as one single-page file (src/app.py:140-148).  In the writing loop
every page has a mapping entry, so the `getD 0` default is never used. -/
def split_pdf_individual_pages (total : Nat) (choice offsetInput : String)
    (book_pages : Option (List Nat)) : SplitResult :=
  let m := get_book_page_mapping total choice offsetInput
  let bps := book_pages.getD (m.map Prod.fst)
  let invalid := invalidPages m bps
  let valid := bps.filter (fun b => (mapLookup m b).isSome)
  if invalid ≠ [] ∧ valid = [] then ⟨false, [], invalid⟩
  else
    let bps' := if invalid ≠ [] then valid else bps
    ⟨true, bps'.map (fun bp => (fileName bp, (mapLookup m bp).getD 0)), invalid⟩

/-! ### Lookup characterisation of the mappings -/

lemma mapLookup_append (l₁ l₂ : List (Nat × Nat)) (b : Nat) :
    mapLookup (l₁ ++ l₂) b = ((mapLookup l₁ b).orElse fun _ => mapLookup l₂ b) := by
  induction l₁ with
  | nil => rfl
  | cons p rest ih =>
    obtain ⟨k, v⟩ := p
    by_cases hb : b = k
    · simp [mapLookup, hb, Option.orElse]
    · simp [mapLookup, hb, ih]

lemma mapLookup_range_map (n a c b : Nat) :
    mapLookup ((List.range n).map (fun i => (i + a, i + c))) b =
      if a ≤ b ∧ b < n + a then some (b - a + c) else none := by
  induction n with
  | zero =>
    simp only [List.range_zero, List.map_nil]
    rw [if_neg (by omega)]
    rfl
  | succ n ih =>
    rw [List.range_succ, List.map_append, mapLookup_append, ih]
    by_cases h₁ : a ≤ b ∧ b < n + a
    · rw [if_pos h₁, if_pos (by omega)]
      rfl
    · rw [if_neg h₁]
      by_cases h₂ : b = n + a
      · rw [if_pos (by omega)]
        simp only [List.map_cons, List.map_nil, mapLookup, if_pos h₂, Option.orElse]
        congr 1
        omega
      · rw [if_neg (by omega)]
        simp only [List.map_cons, List.map_nil, mapLookup, if_neg h₂, Option.orElse]

lemma mapLookup_offsetMapping (total k b : Nat) :
    mapLookup (offsetMapping total k) b =
      if 1 ≤ b ∧ b ≤ total - k then some (b - 1 + k) else none := by
  rw [offsetMapping, mapLookup_range_map (total - k) 1 k b]
  by_cases h : 1 ≤ b ∧ b ≤ total - k
  · rw [if_pos (by omega), if_pos h]
  · rw [if_neg (by omega), if_neg h]

lemma identityMapping_eq_offset (total : Nat) :
    identityMapping total = offsetMapping total 0 := by
  simp [identityMapping, offsetMapping]

lemma mapLookup_identityMapping (total b : Nat) :
    mapLookup (identityMapping total) b =
      if 1 ≤ b ∧ b ≤ total then some (b - 1) else none := by
  rw [identityMapping_eq_offset, mapLookup_offsetMapping]
  simp

lemma gbpm_one (total : Nat) (inp : String) :
    get_book_page_mapping total "1" inp = identityMapping total := by
  unfold get_book_page_mapping
  rw [if_pos (by decide)]

lemma gbpm_other (total : Nat) (choice inp : String)
    (h₁ : trimChars choice.data ≠ ['1']) (h₂ : trimChars choice.data ≠ ['2']) :
    get_book_page_mapping total choice inp = identityMapping total := by
  unfold get_book_page_mapping
  rw [if_neg h₁, if_neg h₂]

lemma gbpm_two_none (total : Nat) (inp : String) (hv : pyInt? inp.data = none) :
    get_book_page_mapping total "2" inp = identityMapping total := by
  unfold get_book_page_mapping
  rw [if_neg (by decide), if_pos (by decide), hv]

lemma gbpm_two_some (total : Nat) (inp : String) (v : Int) (hv : pyInt? inp.data = some v) :
    get_book_page_mapping total "2" inp =
      if v - 1 < 0 ∨ (total : Int) ≤ v - 1 then identityMapping total
      else offsetMapping total (v - 1).toNat := by
  unfold get_book_page_mapping
  rw [if_neg (by decide), if_pos (by decide), hv]

lemma gbpm_two_offset (total : Nat) (inp : String) (v : Int)
    (hv : pyInt? inp.data = some v) (h0 : 0 ≤ v - 1) (hlt : v - 1 < (total : Int)) :
    get_book_page_mapping total "2" inp = offsetMapping total (v - 1).toNat := by
  rw [gbpm_two_some total inp v hv, if_neg (by omega)]

/-- Every branch of `get_book_page_mapping` produces an offset-style mapping
with internal offset `k ≤ total` (the 1:1 mapping being offset `0`). -/
lemma gbpm_shape (total : Nat) (choice inp : String) :
    ∃ k ≤ total, get_book_page_mapping total choice inp = offsetMapping total k := by
  unfold get_book_page_mapping
  split
  · exact ⟨0, Nat.zero_le _, identityMapping_eq_offset _⟩
  · split
    · split
      · exact ⟨0, Nat.zero_le _, identityMapping_eq_offset _⟩
      · dsimp only
        split
        · exact ⟨0, Nat.zero_le _, identityMapping_eq_offset _⟩
        · rename_i v _ hr
          exact ⟨(v - 1).toNat, by omega, rfl⟩
    · exact ⟨0, Nat.zero_le _, identityMapping_eq_offset _⟩

/-! ### Claims about the book-page mapping -/

/-- C2: the identity mapping strategy of `get_book_page_mapping` maps book
page `N` to physical index `N - 1` for every `N` in `[1, total_pdf_pages]`,
and its domain is exactly `{1, ..., total_pdf_pages}` (lookup succeeds at
`N` exactly when `1 ≤ N ≤ total`). -/
theorem identity_mapping_spec (total : Nat) (inp : String) (N : Nat) :
    mapLookup (get_book_page_mapping total "1" inp) N =
      if 1 ≤ N ∧ N ≤ total then some (N - 1) else none := by
  rw [gbpm_one, mapLookup_identityMapping]

/-- C3: the constant-offset strategy maps book page `B` to physical index
`B - 1 + offset` throughout its domain (with internal offset
`offset = v - 1` for user input `v`); a non-integer input, a negative
offset or an offset `≥ total` falls back to the identity mapping; with
offset 4 (user input `"5"`), book page 1 maps to physical index 4. -/
theorem offset_mapping_spec (total : Nat) (inp : String) :
    (∀ v : Int, pyInt? inp.data = some v → 0 ≤ v - 1 → v - 1 < (total : Int) →
      ∀ B : Nat, mapLookup (get_book_page_mapping total "2" inp) B =
        if 1 ≤ B ∧ B ≤ total - (v - 1).toNat then some (B - 1 + (v - 1).toNat) else none)
    ∧ (pyInt? inp.data = none → get_book_page_mapping total "2" inp = identityMapping total)
    ∧ (∀ v : Int, pyInt? inp.data = some v → v - 1 < 0 ∨ (total : Int) ≤ v - 1 →
      get_book_page_mapping total "2" inp = identityMapping total)
    ∧ mapLookup (get_book_page_mapping 10 "2" "5") 1 = some 4 := by
  refine ⟨?_, gbpm_two_none total inp, ?_, by decide⟩
  · intro v hv h0 hlt B
    rw [gbpm_two_offset total inp v hv h0 hlt, mapLookup_offsetMapping]
  · intro v hv hr
    rw [gbpm_two_some total inp v hv, if_pos hr]

theorem offset_mapping_spec_witness :
    mapLookup (get_book_page_mapping 10 "2" "5") 1 =
      if 1 ≤ 1 ∧ 1 ≤ 10 - ((5 : Int) - 1).toNat then some (1 - 1 + ((5 : Int) - 1).toNat)
      else none :=
  (offset_mapping_spec 10 "5").1 5 (by decide) (by decide) (by decide) 1

/-- C6: for every strategy choice and every user input, the returned mapping
maps each of its keys to a value within `[0, total_pdf_pages - 1]`. -/
theorem mapping_values_in_range (total : Nat) (choice inp : String) (b v : Nat)
    (h : mapLookup (get_book_page_mapping total choice inp) b = some v) :
    v < total := by
  obtain ⟨k, hk, he⟩ := gbpm_shape total choice inp
  rw [he, mapLookup_offsetMapping] at h
  split at h
  · rename_i hb
    injection h with h
    omega
  · cases h

theorem mapping_values_in_range_witness :
    mapLookup (get_book_page_mapping 3 "1" "") 1 = some 0 ∧ 0 < 3 :=
  ⟨by decide, mapping_values_in_range 3 "1" "" 1 0 (by decide)⟩

/-- C9: for every strategy choice and every user input, the returned mapping
is injective: no two distinct book pages map to the same physical index, so
the reverse lookup performed at src/app.py:87 has a unique result. -/
theorem mapping_injective_spec (total : Nat) (choice inp : String) (b₁ b₂ i : Nat)
    (h₁ : mapLookup (get_book_page_mapping total choice inp) b₁ = some i)
    (h₂ : mapLookup (get_book_page_mapping total choice inp) b₂ = some i) :
    b₁ = b₂ := by
  obtain ⟨k, hk, he⟩ := gbpm_shape total choice inp
  rw [he, mapLookup_offsetMapping] at h₁ h₂
  split at h₁
  · split at h₂
    · rename_i hb₁ hb₂
      injection h₁ with h₁
      injection h₂ with h₂
      omega
    · cases h₂
  · cases h₁

theorem mapping_injective_spec_witness :
    mapLookup (get_book_page_mapping 3 "1" "") 2 = some 1 ∧ (2 : Nat) = 2 :=
  ⟨by decide, mapping_injective_spec 3 "1" "" 2 2 1 (by decide) (by decide)⟩

/-- C10: under the constant-offset strategy with accepted internal offset
`k = v - 1` (`0 ≤ k < total`), the mapping's domain is exactly
`{1, ..., total - k}`, while its values are exactly the physical indices
`{k, ..., total - 1}` — the mapping still covers the last physical page. -/
theorem offset_domain_spec (total : Nat) (inp : String) (v : Int)
    (hv : pyInt? inp.data = some v) (h0 : 0 ≤ v - 1) (hlt : v - 1 < (total : Int)) :
    (∀ b : Nat, (mapLookup (get_book_page_mapping total "2" inp) b).isSome ↔
       (1 ≤ b ∧ b ≤ total - (v - 1).toNat))
    ∧ (∀ i : Nat, (∃ b : Nat, mapLookup (get_book_page_mapping total "2" inp) b = some i) ↔
       ((v - 1).toNat ≤ i ∧ i ≤ total - 1)) := by
  have he := gbpm_two_offset total inp v hv h0 hlt
  constructor
  · intro b
    rw [he, mapLookup_offsetMapping]
    split
    · rename_i h
      simpa using h
    · rename_i h
      simpa using h
  · intro i
    constructor
    · rintro ⟨b, hb⟩
      rw [he, mapLookup_offsetMapping] at hb
      split at hb
      · rename_i h
        injection hb with hb
        omega
      · cases hb
    · rintro ⟨h1, h2⟩
      refine ⟨i + 1 - (v - 1).toNat, ?_⟩
      rw [he, mapLookup_offsetMapping, if_pos (by omega)]
      congr 1
      omega

theorem offset_domain_spec_witness :
    (mapLookup (get_book_page_mapping 10 "2" "5") 6).isSome ↔
      (1 ≤ 6 ∧ 6 ≤ 10 - ((5 : Int) - 1).toNat) :=
  (offset_domain_spec 10 "5" 5 (by decide) (by decide) (by decide)).1 6

/-! ### Facts about the page-number parser -/

lemma splitOnChar_ne_nil (sep : Char) (cs : List Char) : splitOnChar sep cs ≠ [] := by
  cases cs with
  | nil => simp [splitOnChar]
  | cons c rest =>
    unfold splitOnChar
    split <;> split <;> simp

/-- The pieces produced by splitting on a separator never contain it. -/
lemma splitOnChar_not_mem (sep : Char) (cs : List Char) :
    ∀ piece ∈ splitOnChar sep cs, sep ∉ piece := by
  induction cs with
  | nil =>
    intro piece hp
    simp only [splitOnChar, List.mem_singleton] at hp
    subst hp
    exact List.not_mem_nil sep
  | cons c rest ih =>
    intro piece hp
    unfold splitOnChar at hp
    split at hp
    · rename_i heq
      exact absurd heq (splitOnChar_ne_nil sep rest)
    · rename_i hd tl heq
      by_cases hc : c = sep
      · rw [if_pos hc] at hp
        rcases List.mem_cons.mp hp with rfl | hp'
        · exact List.not_mem_nil sep
        · exact ih piece (by rw [heq]; exact hp')
      · rw [if_neg hc] at hp
        rcases List.mem_cons.mp hp with rfl | hp'
        · intro hmem
          rcases List.mem_cons.mp hmem with heq2 | hmem'
          · exact hc heq2.symm
          · exact ih hd (by rw [heq]; exact List.mem_cons_self hd tl) hmem'
        · exact ih piece (by rw [heq]; exact List.mem_cons_of_mem hd hp')

lemma mem_trimChars {a : Char} {cs : List Char} (h : a ∈ trimChars cs) : a ∈ cs := by
  unfold trimChars at h
  rw [List.mem_reverse] at h
  have h₁ := (List.dropWhile_sublist _).subset h
  rw [List.mem_reverse] at h₁
  exact (List.dropWhile_sublist _).subset h₁

/-- A string parsed by `int()` without a `-` character is non-negative. -/
lemma pyInt_nonneg {cs : List Char} {n : Int} (h : pyInt? cs = some n) (hm : '-' ∉ cs) :
    0 ≤ n := by
  unfold pyInt? at h
  split at h
  · cases h
  · rename_i c rest heq
    split at h
    · split at h
      · injection h with h
        omega
      · cases h
    · split at h
      · rename_i hplus hneg
        exact absurd (mem_trimChars (by rw [heq]; exact hneg ▸ List.mem_cons_self c rest)) hm
      · split at h
        · injection h with h
          omega
        · cases h

lemma rangeInts_bounds {a b n : Int} (h : n ∈ rangeInts a b) : a ≤ n ∧ n ≤ b := by
  simp only [rangeInts, List.mem_map, List.mem_range] at h
  obtain ⟨i, hi, rfl⟩ := h
  omega

/-- Every integer contributed by a token of `parse_page_numbers` is
non-negative: a lone `-` sign routes the token into the range branch, and
range endpoints are split on `-`, so no parsed integer carries a sign. -/
lemma parseToken_nonneg {tok : List Char} {n : Int} (h : n ∈ parseToken tok) : 0 ≤ n := by
  unfold parseToken at h
  split at h
  · rename_i hmem
    split at h
    · rename_i a b heq
      split at h
      · rename_i s e hs he
        split at h
        · have ha : '-' ∉ a :=
            splitOnChar_not_mem '-' tok a (by rw [heq]; exact List.mem_cons_self a [b])
          have hs0 : 0 ≤ s := pyInt_nonneg hs ha
          have hb := rangeInts_bounds h
          omega
        · exact absurd h (List.not_mem_nil n)
      · exact absurd h (List.not_mem_nil n)
    · exact absurd h (List.not_mem_nil n)
  · rename_i hmem
    split at h
    · rename_i m hm
      rw [List.mem_singleton] at h
      subst h
      exact pyInt_nonneg hm hmem
    · exact absurd h (List.not_mem_nil n)

/-- C8 (amended): every entry of the list returned by `parse_page_numbers`
is non-negative. -/
theorem parse_nonneg_spec (s : String) (n : Int) (h : n ∈ parse_page_numbers s) :
    0 ≤ n := by
  simp only [parse_page_numbers, List.mem_insertionSort, List.mem_dedup,
    List.mem_flatten, List.mem_map] at h
  obtain ⟨l, ⟨tok, htok, rfl⟩, hn⟩ := h
  unfold parsePart at hn
  exact parseToken_nonneg hn

theorem parse_nonneg_spec_witness :
    (1 : Int) ∈ parse_page_numbers "1" ∧ (0 : Int) ≤ 1 :=
  ⟨by decide, parse_nonneg_spec "1" 1 (by decide)⟩

/-- C8 (counterexample): the token `"0"` parses to the entry `0`, which is
not a positive integer, so not every entry of the returned list is
positive. -/
theorem parse_positive_cex :
    parse_page_numbers "0" = [0] ∧ ¬ (∀ n ∈ parse_page_numbers "0", 0 < n) := by
  constructor
  · decide
  · decide

/-- C1: `parse_page_numbers` returns a sorted, duplicate-free list; its
entries are exactly the integers contributed by the comma-separated tokens;
a stripped token without `-` that parses as an integer contributes that
integer; a stripped token with `-` that splits into two integers `A-B`
contributes `A..B` when `A ≤ B` and nothing (after a warning) otherwise;
malformed tokens contribute nothing, never aborting the parse; parsing
`"1,3,5-7"` yields `[1,3,5,6,7]` and `"3-1"` yields `[]`. -/
theorem parse_page_numbers_spec (s : String) :
    List.Pairwise (· < ·) (parse_page_numbers s)
    ∧ (∀ n : Int, n ∈ parse_page_numbers s ↔
        ∃ tok ∈ splitOnChar ',' s.data, n ∈ parsePart tok)
    ∧ (∀ tok : List Char, ∀ n : Int, '-' ∉ trimChars tok →
        pyInt? (trimChars tok) = some n → parsePart tok = [n])
    ∧ (∀ tok a b : List Char, ∀ A B : Int,
        '-' ∈ trimChars tok → splitOnChar '-' (trimChars tok) = [a, b] →
        pyInt? a = some A → pyInt? b = some B →
        parsePart tok = if A ≤ B then rangeInts A B else [])
    ∧ parse_page_numbers "1,3,5-7" = [1, 3, 5, 6, 7]
    ∧ parse_page_numbers "3-1" = [] := by
  refine ⟨?_, ?_, ?_, ?_, by decide, by decide⟩
  · have hs : List.Sorted (· ≤ ·) (parse_page_numbers s) :=
      List.sorted_insertionSort _ _
    have hnd : (parse_page_numbers s).Nodup :=
      (List.perm_insertionSort (α := Int) (· ≤ ·) _).symm.nodup (List.nodup_dedup _)
    exact hs.lt_of_le hnd
  · intro n
    simp only [parse_page_numbers, List.mem_insertionSort, List.mem_dedup,
      List.mem_flatten, List.mem_map]
    constructor
    · rintro ⟨l, ⟨tok, htok, rfl⟩, hn⟩
      exact ⟨tok, htok, hn⟩
    · rintro ⟨tok, htok, hn⟩
      exact ⟨parsePart tok, ⟨tok, htok, rfl⟩, hn⟩
  · intro tok n hnm hint
    unfold parsePart parseToken
    rw [if_neg hnm, hint]
  · intro tok a b A B hm hsplit hA hB
    simp only [parsePart, parseToken, if_pos hm, hsplit, hA, hB]

theorem parse_page_numbers_spec_witness :
    ('-' ∉ trimChars "7".data) ∧ pyInt? (trimChars "7".data) = some 7
      ∧ parsePart "7".data = [7] :=
  ⟨by decide, by decide,
    (parse_page_numbers_spec "7").2.2.1 "7".data 7 (by decide) (by decide)⟩

/-! ### Facts about extraction and splitting -/

lemma extract_written (total : Nat) (choice inp : String) (bps : List Nat) :
    (extract_pages_to_single_pdf total choice inp bps).written =
      if invalidPages (get_book_page_mapping total choice inp) bps ≠ []
          ∧ validIndices (get_book_page_mapping total choice inp) bps = []
      then []
      else List.insertionSort (· ≤ ·)
        (validIndices (get_book_page_mapping total choice inp) bps) := by
  simp only [extract_pages_to_single_pdf]
  split <;> rfl

lemma extract_invalid (total : Nat) (choice inp : String) (bps : List Nat) :
    (extract_pages_to_single_pdf total choice inp bps).invalid =
      invalidPages (get_book_page_mapping total choice inp) bps := by
  simp only [extract_pages_to_single_pdf]
  split <;> rfl

lemma extract_success (total : Nat) (choice inp : String) (bps : List Nat) :
    (extract_pages_to_single_pdf total choice inp bps).success =
      if invalidPages (get_book_page_mapping total choice inp) bps ≠ []
          ∧ validIndices (get_book_page_mapping total choice inp) bps = []
      then false else true := by
  simp only [extract_pages_to_single_pdf]
  split <;> rfl

lemma split_invalid (total : Nat) (choice inp : String) (obps : Option (List Nat)) :
    (split_pdf_individual_pages total choice inp obps).invalid =
      invalidPages (get_book_page_mapping total choice inp)
        (obps.getD ((get_book_page_mapping total choice inp).map Prod.fst)) := by
  simp only [split_pdf_individual_pages]
  split <;> rfl

lemma split_success (total : Nat) (choice inp : String) (obps : Option (List Nat)) :
    (split_pdf_individual_pages total choice inp obps).success =
      (if invalidPages (get_book_page_mapping total choice inp)
            (obps.getD ((get_book_page_mapping total choice inp).map Prod.fst)) ≠ []
          ∧ (obps.getD ((get_book_page_mapping total choice inp).map Prod.fst)).filter
              (fun b => (mapLookup (get_book_page_mapping total choice inp) b).isSome) = []
      then false else true) := by
  simp only [split_pdf_individual_pages]
  split <;> rfl

lemma split_files (total : Nat) (choice inp : String) (obps : Option (List Nat)) :
    (split_pdf_individual_pages total choice inp obps).files =
      (if invalidPages (get_book_page_mapping total choice inp)
            (obps.getD ((get_book_page_mapping total choice inp).map Prod.fst)) ≠ []
          ∧ (obps.getD ((get_book_page_mapping total choice inp).map Prod.fst)).filter
              (fun b => (mapLookup (get_book_page_mapping total choice inp) b).isSome) = []
      then []
      else
        (if invalidPages (get_book_page_mapping total choice inp)
              (obps.getD ((get_book_page_mapping total choice inp).map Prod.fst)) ≠ []
        then (obps.getD ((get_book_page_mapping total choice inp).map Prod.fst)).filter
              (fun b => (mapLookup (get_book_page_mapping total choice inp) b).isSome)
        else obps.getD ((get_book_page_mapping total choice inp).map Prod.fst)).map
          (fun bp => (fileName bp,
            (mapLookup (get_book_page_mapping total choice inp) bp).getD 0))) := by
  simp only [split_pdf_individual_pages]
  split <;> rfl

lemma mapLookup_isSome_of_mem_keys {m : List (Nat × Nat)} {b : Nat}
    (h : b ∈ m.map Prod.fst) : (mapLookup m b).isSome := by
  induction m with
  | nil => simp at h
  | cons p rest ih =>
    obtain ⟨k, v⟩ := p
    rw [List.map_cons] at h
    by_cases hb : b = k
    · simp [mapLookup, hb]
    · rcases List.mem_cons.mp h with h' | h'
      · exact absurd h' hb
      · simp [mapLookup, hb, ih h']

/-- C4: the pages written by `extract_pages_to_single_pdf` come out sorted
by physical index, and the output is invariant under permutation of the
requested book-page list. -/
theorem extract_sorted_spec (total : Nat) (choice inp : String) (bps bps' : List Nat)
    (h : bps.Perm bps') :
    (extract_pages_to_single_pdf total choice inp bps).written
      = (extract_pages_to_single_pdf total choice inp bps').written
    ∧ List.Sorted (· ≤ ·) (extract_pages_to_single_pdf total choice inp bps).written := by
  have hperm : (validIndices (get_book_page_mapping total choice inp) bps).Perm
      (validIndices (get_book_page_mapping total choice inp) bps') := h.filterMap _
  have hinv : (invalidPages (get_book_page_mapping total choice inp) bps).Perm
      (invalidPages (get_book_page_mapping total choice inp) bps') := h.filter _
  have e1 : invalidPages (get_book_page_mapping total choice inp) bps = [] ↔
      invalidPages (get_book_page_mapping total choice inp) bps' = [] := by
    rw [← List.length_eq_zero, ← List.length_eq_zero, hinv.length_eq]
  have e2 : validIndices (get_book_page_mapping total choice inp) bps = [] ↔
      validIndices (get_book_page_mapping total choice inp) bps' = [] := by
    rw [← List.length_eq_zero, ← List.length_eq_zero, hperm.length_eq]
  rw [extract_written, extract_written]
  by_cases hc : invalidPages (get_book_page_mapping total choice inp) bps ≠ []
      ∧ validIndices (get_book_page_mapping total choice inp) bps = []
  · rw [if_pos hc, if_pos ⟨fun hh => hc.1 (e1.mpr hh), e2.mp hc.2⟩]
    exact ⟨rfl, List.sorted_nil⟩
  · rw [if_neg hc, if_neg (fun hh => hc ⟨fun h2 => hh.1 (e1.mp h2), e2.mpr hh.2⟩)]
    refine ⟨?_, List.sorted_insertionSort _ _⟩
    refine List.eq_of_perm_of_sorted ?_
      (List.sorted_insertionSort _ _) (List.sorted_insertionSort _ _)
    exact (List.perm_insertionSort _ _).trans
      (hperm.trans (List.perm_insertionSort _ _).symm)

theorem extract_sorted_spec_witness :
    (extract_pages_to_single_pdf 3 "1" "" [2, 1]).written
      = (extract_pages_to_single_pdf 3 "1" "" [1, 2]).written
    ∧ List.Sorted (· ≤ ·) (extract_pages_to_single_pdf 3 "1" "" [2, 1]).written :=
  extract_sorted_spec 3 "1" "" [2, 1] [1, 2] (by decide)

/-- C5 (amended): in both operations every requested book page missing from
the mapping is reported as invalid, only pages found in the mapping are
processed, and the function returns `False` exactly when at least one
requested page was invalid and no valid page remains (an empty request
succeeds vacuously). -/
theorem validation_spec (total : Nat) (choice inp : String) (bps : List Nat) :
    (extract_pages_to_single_pdf total choice inp bps).invalid
      = invalidPages (get_book_page_mapping total choice inp) bps
    ∧ ((extract_pages_to_single_pdf total choice inp bps).success = false ↔
        invalidPages (get_book_page_mapping total choice inp) bps ≠ []
        ∧ validIndices (get_book_page_mapping total choice inp) bps = [])
    ∧ (∀ i ∈ (extract_pages_to_single_pdf total choice inp bps).written,
        ∃ b ∈ bps, mapLookup (get_book_page_mapping total choice inp) b = some i)
    ∧ (split_pdf_individual_pages total choice inp (some bps)).invalid
      = invalidPages (get_book_page_mapping total choice inp) bps
    ∧ ((split_pdf_individual_pages total choice inp (some bps)).success = false ↔
        invalidPages (get_book_page_mapping total choice inp) bps ≠ []
        ∧ bps.filter (fun b => (mapLookup (get_book_page_mapping total choice inp) b).isSome) = [])
    ∧ (∀ f ∈ (split_pdf_individual_pages total choice inp (some bps)).files,
        ∃ b ∈ bps, mapLookup (get_book_page_mapping total choice inp) b = some f.2
          ∧ f.1 = fileName b) := by
  refine ⟨extract_invalid total choice inp bps, ?_, ?_, split_invalid total choice inp (some bps),
    ?_, ?_⟩
  · rw [extract_success]
    by_cases hc : invalidPages (get_book_page_mapping total choice inp) bps ≠ []
        ∧ validIndices (get_book_page_mapping total choice inp) bps = []
    · rw [if_pos hc]
      exact iff_of_true rfl hc
    · rw [if_neg hc]
      exact iff_of_false (by simp) hc
  · intro i hi
    rw [extract_written] at hi
    split at hi
    · exact absurd hi (List.not_mem_nil i)
    · rw [List.mem_insertionSort] at hi
      unfold validIndices at hi
      rw [List.mem_filterMap] at hi
      exact hi
  · rw [split_success]
    simp only [Option.getD_some]
    by_cases hc : invalidPages (get_book_page_mapping total choice inp) bps ≠ []
        ∧ bps.filter (fun b => (mapLookup (get_book_page_mapping total choice inp) b).isSome) = []
    · rw [if_pos hc]
      exact iff_of_true rfl hc
    · rw [if_neg hc]
      exact iff_of_false (by simp) hc
  · intro f hf
    rw [split_files] at hf
    simp only [Option.getD_some] at hf
    split at hf
    · exact absurd hf (List.not_mem_nil f)
    · rw [List.mem_map] at hf
      obtain ⟨bp, hbp, rfl⟩ := hf
      by_cases hinv : invalidPages (get_book_page_mapping total choice inp) bps ≠ []
      · rw [if_pos hinv] at hbp
        rw [List.mem_filter] at hbp
        obtain ⟨hbp, hsome⟩ := hbp
        cases hmb : mapLookup (get_book_page_mapping total choice inp) bp with
        | none => rw [hmb] at hsome; cases hsome
        | some i => exact ⟨bp, hbp, by simp [hmb]⟩
      · rw [if_neg hinv] at hbp
        have hnil : invalidPages (get_book_page_mapping total choice inp) bps = [] := by
          simpa using hinv
        rw [invalidPages, List.filter_eq_nil_iff] at hnil
        have hns := hnil bp hbp
        cases hmb : mapLookup (get_book_page_mapping total choice inp) bp with
        | none => rw [hmb] at hns; simp at hns
        | some i => exact ⟨bp, hbp, by simp [hmb]⟩

theorem validation_spec_witness :
    ∃ b ∈ [1, 5], mapLookup (get_book_page_mapping 3 "1" "") b = some 0 :=
  (validation_spec 3 "1" "" [1, 5]).2.2.1 0 (by decide)

/-- C7: `split_pdf_individual_pages` writes exactly one single-page output
file per valid requested book page, named `book_page_<N>.pdf` with `N` the
logical page number; `book_pages=None` selects every key of the mapping, so
a 3-page PDF under the identity mapping with no page selection yields
exactly the files `book_page_1.pdf`, `book_page_2.pdf`, `book_page_3.pdf`. -/
theorem split_files_spec (total : Nat) (choice inp : String) :
    (∀ bps : List Nat,
      (split_pdf_individual_pages total choice inp (some bps)).success = true →
      (split_pdf_individual_pages total choice inp (some bps)).files
        = (bps.filter (fun b => (mapLookup (get_book_page_mapping total choice inp) b).isSome)).map
            (fun bp => (fileName bp, (mapLookup (get_book_page_mapping total choice inp) bp).getD 0)))
    ∧ (split_pdf_individual_pages total choice inp none).files
        = ((get_book_page_mapping total choice inp).map Prod.fst).map
            (fun bp => (fileName bp, (mapLookup (get_book_page_mapping total choice inp) bp).getD 0))
    ∧ (split_pdf_individual_pages 3 "1" "" none).files
        = [("book_page_1.pdf", 0), ("book_page_2.pdf", 1), ("book_page_3.pdf", 2)] := by
  refine ⟨?_, ?_, by decide⟩
  · intro bps hsucc
    rw [split_success] at hsucc
    rw [split_files]
    simp only [Option.getD_some] at hsucc ⊢
    split at hsucc
    · cases hsucc
    · rename_i hc
      rw [if_neg hc]
      by_cases hinv : invalidPages (get_book_page_mapping total choice inp) bps ≠ []
      · rw [if_pos hinv]
      · rw [if_neg hinv]
        have hnil : invalidPages (get_book_page_mapping total choice inp) bps = [] := by
          simpa using hinv
        rw [invalidPages, List.filter_eq_nil_iff] at hnil
        have : bps.filter
            (fun b => (mapLookup (get_book_page_mapping total choice inp) b).isSome) = bps := by
          rw [List.filter_eq_self]
          intro b hb
          have := hnil b hb
          simpa [Option.isSome_iff_ne_none, Option.isNone_iff_eq_none] using this
        rw [this]
  · rw [split_files]
    have hnil : invalidPages (get_book_page_mapping total choice inp)
        ((get_book_page_mapping total choice inp).map Prod.fst) = [] := by
      rw [invalidPages, List.filter_eq_nil_iff]
      intro b hb
      simp [Option.isNone_iff_eq_none,
        Option.isSome_iff_ne_none.mp (mapLookup_isSome_of_mem_keys hb)]
    simp only [Option.getD_none]
    rw [if_neg (by simp [hnil]), if_neg (by simp [hnil])]

theorem split_files_spec_witness :
    (split_pdf_individual_pages 3 "1" "" (some [1, 2])).files
      = (([1, 2].filter (fun b => (mapLookup (get_book_page_mapping 3 "1" "") b).isSome)).map
          (fun bp => (fileName bp, (mapLookup (get_book_page_mapping 3 "1" "") bp).getD 0))) :=
  (split_files_spec 3 "1" "").1 [1, 2] (by decide)

/-- C5 (counterexample to the original claim): with an empty request list
there are no valid pages to process, yet `extract_pages_to_single_pdf`
returns `True`, so "returns False exactly when no valid pages remain" fails
as stated. -/
theorem extract_false_iff_cex :
    (extract_pages_to_single_pdf 3 "1" "" []).success = true
    ∧ validIndices (get_book_page_mapping 3 "1" "") [] = []
    ∧ (split_pdf_individual_pages 3 "1" "" (some [])).success = true := by
  refine ⟨by decide, by decide, by decide⟩

end PdfSplitter
